import Mathlib

/-!
Verification of the unused-screenshot detection and cleanup plugin.

The development shallowly embeds the plugin's master-side pipeline
(the `clean-screenshots` command action), the master event handlers
(`AFTER_TESTS_READ`, `TEST_END`) and the worker event handler
(`NEW_BROWSER`) from `src/lib/index.js`.  External collaborators
(the glob expander, `fs.stat`, `fs.unlink`, the interactive prompt,
the test runner itself) are modelled as an environment of fallible
results; the pipeline is a pure function from that environment to a
trace recording every collaborator call, every log message and the
requested exit code.
-/

namespace ScreenshotsCleaner

/-- Embedding of `_.uniq`: keep the first occurrence of every element,
in order. -/
def uniq : List String → List String
  | [] => []
  | x :: xs => x :: (uniq xs).filter (fun y => y ≠ x)

/-- Embedding of `_.difference(readRefPaths, opts.usedRefPaths)`
(src/lib/index.js line 53): elements of the first list that do not occur
in the second, in order, duplicates of the first list preserved.  The
second argument is `Option` because `opts.usedRefPaths` may still be
`undefined` at diff time; lodash then treats it as contributing no
exclusions. -/
def lodashDifference (found : List String) (used : Option (List String)) : List String :=
  found.filter (fun p => !((used.getD []).contains p))

/-- Embedding of `path.resolve(base, p)` for an absolute, normalised
`base` and a normalised `p`: an absolute `p` wins, otherwise `p` is
joined onto `base`. -/
def resolvePath (base p : String) : String :=
  if p.startsWith "/" then p else base ++ "/" ++ p

/-- Embedding of `genScreenPattern` (src/lib/index.js lines 159-161):
`path.resolve(pattern, '**', '*.png')` for an absolute normalised
`pattern`. -/
def genScreenPattern (pattern : String) : String :=
  pattern ++ "/**/*.png"

/-- A test descriptor: the fields the embedded handlers actually read
or write (`file` stands for the metadata a per-test screenshot-directory
function may consult). -/
structure Test where
  file : String
  pending : Bool
  silentSkip : Bool
deriving DecidableEq, Repr

/-- A browser's `screenshotsDir` configuration value: either a fixed
directory string or a function of the test descriptor
(the `_.isFunction(screenshotsDir)` branch in src/lib/index.js
lines 100-106). -/
inductive ScreenshotsDir where
  | fixed (dir : String)
  | perTest (fn : Test → String)

/-- True when a `screenshotsDir` configuration is the function variant. -/
def ScreenshotsDir.isPerTest : ScreenshotsDir → Bool
  | .fixed _ => false
  | .perTest _ => true

/-- Embedding of the mutation performed on each enumerated test in the
`eachTest` callback (src/lib/index.js lines 118-121): a pending test has
`pending` and `silentSkip` forced to `false`; other tests are untouched. -/
def forceEnable (t : Test) : Test :=
  if t.pending then { t with pending := false, silentSkip := false } else t

/-- Reducer of the `collection.getBrowsers().reduce(...)` pass
(src/lib/index.js lines 99-110): a function-valued directory records the
browser id in `screenDirFns`, a fixed directory appends its pattern. -/
def browserStep (cwd : String) (config : String → ScreenshotsDir)
    (acc : List String × List String) (bId : String) : List String × List String :=
  match config bId with
  | .perTest _ => (acc.1 ++ [bId], acc.2)
  | .fixed dir => (acc.1, acc.2 ++ [genScreenPattern (resolvePath cwd dir)])

/-- Body of the `collection.eachTest(...)` callback (src/lib/index.js
lines 112-122): a pair whose browser is in `screenDirFns` appends the
per-test pattern, and a pending test is force-enabled. -/
def eachTestStep (config : String → ScreenshotsDir) (screenDirFns : List String)
    (acc : List String × List (Test × String)) (p : Test × String) :
    List String × List (Test × String) :=
  let pats :=
    if screenDirFns.contains p.2 then
      match config p.2 with
      | .perTest fn => acc.1 ++ [genScreenPattern (fn p.1)]
      | .fixed _ => acc.1
    else acc.1
  (pats, acc.2 ++ [(forceEnable p.1, p.2)])

/-- Embedding of the `AFTER_TESTS_READ` handler (src/lib/index.js
lines 98-123).  Inputs: the working directory, the per-browser
configuration lookup (`hermione.config.forBrowser`), the browser ids of
the collection (`collection.getBrowsers()`), the enumerated
(test, browserId) pairs (`collection.eachTest`) and the pattern list
accumulated so far.  The first pass over the browsers records which
browsers have a function-valued directory (`screenDirFns`) and appends
one fixed-directory pattern per remaining browser; the second pass over
the pairs appends one pattern per pair whose browser is in
`screenDirFns` and force-enables pending tests.  Returns the extended
pattern list and the updated pairs. -/
def afterTestsRead (cwd : String) (config : String → ScreenshotsDir)
    (browsers : List String) (pairs : List (Test × String))
    (screenPatterns : List String) : List String × List (Test × String) :=
  let step1 := browsers.foldl (browserStep cwd config) ([], screenPatterns)
  pairs.foldl (eachTestStep config step1.1) (step1.2, [])

/-- Spec-side definition of the derived fixed-directory patterns: one
pattern `resolve(cwd, dir)/**/*.png` per browser id whose directory is a
fixed string. -/
def specFixedPatterns (cwd : String) (config : String → ScreenshotsDir)
    (browsers : List String) : List String :=
  browsers.filterMap (fun bId =>
    match config bId with
    | .fixed dir => some (genScreenPattern (resolvePath cwd dir))
    | .perTest _ => none)

/-- Spec-side definition of the derived per-test patterns: one pattern
`resolve(fn(test))/**/*.png` per enumerated (test, browserId) pair whose
browser has a function-valued directory. -/
def specPerTestPatterns (config : String → ScreenshotsDir)
    (pairs : List (Test × String)) : List String :=
  pairs.filterMap (fun p =>
    match config p.2 with
    | .perTest fn => some (genScreenPattern (fn p.1))
    | .fixed _ => none)

/-- The pattern list the command action hands to glob expansion after a
single `AFTER_TESTS_READ` event: the accumulated list run through
`_.uniq` (src/lib/index.js line 41 before line 44). -/
def globInput (cwd : String) (config : String → ScreenshotsDir)
    (browsers : List String) (pairs : List (Test × String))
    (staticPatterns : List String) : List String :=
  uniq (afterTestsRead cwd config browsers pairs staticPatterns).1

/-- Membership in the embedded lodash difference. -/
theorem mem_lodashDifference (found used : List String) (p : String) :
    p ∈ lodashDifference found (some used) ↔ p ∈ found ∧ p ∉ used := by
  simp [lodashDifference, List.mem_filter, List.contains, List.elem_iff]

/-- C1: the unused set computed by the pipeline is the plain set
difference Found − Used by path-string equality: it contains no element
of Used, contains every element of Found that is not in Used, and is
empty exactly when every element of Found lies in Used. -/
theorem unused_is_set_difference (found used : List String) :
    (∀ p ∈ used, p ∉ lodashDifference found (some used))
    ∧ (∀ p ∈ found, p ∉ used → p ∈ lodashDifference found (some used))
    ∧ (lodashDifference found (some used) = [] ↔ ∀ p ∈ found, p ∈ used) := by
  refine ⟨?_, ?_, ?_⟩
  · intro p hp hmem
    exact ((mem_lodashDifference found used p).1 hmem).2 hp
  · intro p hp hnot
    exact (mem_lodashDifference found used p).2 ⟨hp, hnot⟩
  · constructor
    · intro h p hp
      by_contra hnot
      have hmem : p ∈ lodashDifference found (some used) :=
        (mem_lodashDifference found used p).2 ⟨hp, hnot⟩
      rw [h] at hmem
      exact List.not_mem_nil p hmem
    · intro h
      apply List.eq_nil_iff_forall_not_mem.mpr
      intro p hmem
      obtain ⟨hf, hn⟩ := (mem_lodashDifference found used p).1 hmem
      exact hn (h p hf)

/-- Closed instantiation of `unused_is_set_difference` discharging its
membership hypotheses at a concrete input. -/
theorem unused_is_set_difference_inst :
    "/s/b.png" ∈ lodashDifference ["/s/a.png", "/s/b.png"] (some ["/s/a.png"]) :=
  (unused_is_set_difference ["/s/a.png", "/s/b.png"] ["/s/a.png"]).2.1
    "/s/b.png" (by decide) (by decide)

/-- Bridge between the Boolean `List.contains` used by the embedded
handlers and propositional membership. -/
theorem contains_iff_mem (l : List String) (a : String) :
    l.contains a = true ↔ a ∈ l := by
  simp [List.contains, List.elem_iff]

/-- Unfolding of the fold over the browsers: it returns the ids of the
function-directory browsers in order, and the incoming patterns followed
by one fixed-directory pattern per fixed-directory browser. -/
theorem foldl_browserStep (cwd : String) (config : String → ScreenshotsDir) :
    ∀ (browsers : List String) (fns pats : List String),
      browsers.foldl (browserStep cwd config) (fns, pats)
        = (fns ++ browsers.filter (fun b => (config b).isPerTest),
           pats ++ specFixedPatterns cwd config browsers) := by
  intro browsers
  induction browsers with
  | nil => intro fns pats; simp [specFixedPatterns]
  | cons b bs ih =>
    intro fns pats
    cases hcb : config b with
    | fixed dir =>
      rw [List.foldl_cons]
      show bs.foldl (browserStep cwd config) (browserStep cwd config (fns, pats) b)
        = _
      rw [show browserStep cwd config (fns, pats) b
            = (fns, pats ++ [genScreenPattern (resolvePath cwd dir)]) by
          simp [browserStep, hcb]]
      rw [ih]
      simp [specFixedPatterns, hcb, ScreenshotsDir.isPerTest, List.filter_cons]
    | perTest fn =>
      rw [List.foldl_cons]
      rw [show browserStep cwd config (fns, pats) b = (fns ++ [b], pats) by
          simp [browserStep, hcb]]
      rw [ih]
      simp [specFixedPatterns, hcb, ScreenshotsDir.isPerTest, List.filter_cons]

/-- Unfolding of the fold over the enumerated (test, browserId) pairs,
assuming `fns` classifies each pair's browser correctly: it appends one
per-test pattern per function-directory pair and force-enables every
test. -/
theorem foldl_eachTestStep_eq (config : String → ScreenshotsDir) (fns : List String) :
    ∀ (pairs : List (Test × String)) (pats : List String) (ts : List (Test × String)),
      (∀ p ∈ pairs, fns.contains p.2 = (config p.2).isPerTest) →
      pairs.foldl (eachTestStep config fns) (pats, ts)
        = (pats ++ specPerTestPatterns config pairs,
           ts ++ pairs.map (fun p => (forceEnable p.1, p.2))) := by
  intro pairs
  induction pairs with
  | nil => intro pats ts _; simp [specPerTestPatterns]
  | cons p ps ih =>
    intro pats ts h
    have hp := h p (List.mem_cons_self p ps)
    have hps : ∀ q ∈ ps, fns.contains q.2 = (config q.2).isPerTest :=
      fun q hq => h q (List.mem_cons_of_mem p hq)
    rw [List.foldl_cons]
    cases hcp : config p.2 with
    | fixed dir =>
      have hcont : fns.contains p.2 = false := by
        rw [hp, hcp]; rfl
      rw [show eachTestStep config fns (pats, ts) p
            = (pats, ts ++ [(forceEnable p.1, p.2)]) by
          simp only [eachTestStep]; rw [hcont]; simp]
      rw [ih _ _ hps]
      simp [specPerTestPatterns, hcp]
    | perTest fn =>
      have hcont : fns.contains p.2 = true := by
        rw [hp, hcp]; rfl
      rw [show eachTestStep config fns (pats, ts) p
            = (pats ++ [genScreenPattern (fn p.1)], ts ++ [(forceEnable p.1, p.2)]) by
          simp only [eachTestStep]; rw [hcont, hcp]; simp]
      rw [ih _ _ hps]
      simp [specPerTestPatterns, hcp]

/-- The `screenDirFns` list built by the browsers pass classifies any
browser of the collection: it contains a browser exactly when that
browser's directory is function-valued. -/
theorem contains_filter_isPerTest (config : String → ScreenshotsDir)
    (browsers : List String) (b : String) (hb : b ∈ browsers) :
    (browsers.filter (fun x => (config x).isPerTest)).contains b
      = (config b).isPerTest := by
  by_cases hmem : b ∈ browsers.filter (fun x => (config x).isPerTest)
  · have h1 : (browsers.filter (fun x => (config x).isPerTest)).contains b = true :=
      (contains_iff_mem _ _).mpr hmem
    have h2 : (config b).isPerTest = true := (List.mem_filter.mp hmem).2
    rw [h1, h2]
  · have h1 : (browsers.filter (fun x => (config x).isPerTest)).contains b = false := by
      cases hc : (browsers.filter (fun x => (config x).isPerTest)).contains b
      · rfl
      · exact absurd ((contains_iff_mem _ _).mp hc) hmem
    have h2 : (config b).isPerTest = false := by
      cases hc : (config b).isPerTest
      · rfl
      · exact absurd (List.mem_filter.mpr ⟨hb, hc⟩) hmem
    rw [h1, h2]

/-- C2: the pattern list handed to glob expansion is the deduplication
of the static patterns followed by the derived patterns, where each
fixed-directory browser contributes `resolve(cwd, dir)/**/*.png` once
per browser id and each function-directory browser contributes
`resolve(fn(test))/**/*.png` once per enumerated (test, browserId) pair
for that browser. -/
theorem glob_patterns_eq_dedup (cwd : String) (config : String → ScreenshotsDir)
    (browsers : List String) (pairs : List (Test × String))
    (staticPatterns : List String)
    (h : ∀ p ∈ pairs, p.2 ∈ browsers) :
    globInput cwd config browsers pairs staticPatterns
      = uniq (staticPatterns ++ specFixedPatterns cwd config browsers
          ++ specPerTestPatterns config pairs) := by
  have hc : ∀ p ∈ pairs,
      (browsers.filter (fun x => (config x).isPerTest)).contains p.2
        = (config p.2).isPerTest :=
    fun p hp => contains_filter_isPerTest config browsers p.2 (h p hp)
  simp only [globInput, afterTestsRead, foldl_browserStep, List.nil_append]
  rw [foldl_eachTestStep_eq config _ pairs _ [] hc]

/-- Sample per-browser configuration used to instantiate the pattern
theorems: one fixed-directory browser and one function-directory
browser. -/
def sampleConfig : String → ScreenshotsDir := fun b =>
  if b = "fnbro" then ScreenshotsDir.perTest (fun t => t.file ++ "/screens")
  else ScreenshotsDir.fixed "scr"

/-- Sample test descriptor with a given file. -/
def sampleTest (f : String) : Test :=
  { file := f, pending := false, silentSkip := false }

/-- Closed instantiation of `glob_patterns_eq_dedup` discharging its
browser-membership hypothesis at a concrete collection. -/
theorem glob_patterns_eq_dedup_inst :
    globInput "/cwd" sampleConfig ["yabro", "fnbro"]
        [(sampleTest "/a", "yabro"), (sampleTest "/a", "fnbro"), (sampleTest "/b", "fnbro")]
        ["/static/**"]
      = uniq (["/static/**"] ++ specFixedPatterns "/cwd" sampleConfig ["yabro", "fnbro"]
          ++ specPerTestPatterns sampleConfig
              [(sampleTest "/a", "yabro"), (sampleTest "/a", "fnbro"),
               (sampleTest "/b", "fnbro")]) :=
  glob_patterns_eq_dedup "/cwd" sampleConfig ["yabro", "fnbro"]
    [(sampleTest "/a", "yabro"), (sampleTest "/a", "fnbro"), (sampleTest "/b", "fnbro")]
    ["/static/**"] (by decide)

/-- Second component of the pairs fold: the pairs with every pending
test force-enabled, independent of the pattern branch. -/
theorem foldl_eachTestStep_snd (config : String → ScreenshotsDir) (fns : List String) :
    ∀ (pairs : List (Test × String)) (acc : List String × List (Test × String)),
      (pairs.foldl (eachTestStep config fns) acc).2
        = acc.2 ++ pairs.map (fun p => (forceEnable p.1, p.2)) := by
  intro pairs
  induction pairs with
  | nil => intro acc; simp
  | cons p ps ih =>
    intro acc
    rw [List.foldl_cons, ih]
    simp [eachTestStep]

/-- C9: the pattern-collection pass maps `forceEnable` over every
enumerated test, and `forceEnable` sets `pending` and `silentSkip` to
`false` exactly on tests whose `pending` flag is `true`, leaving other
tests unmodified. -/
theorem pending_tests_force_enabled (cwd : String) (config : String → ScreenshotsDir)
    (browsers : List String) (pairs : List (Test × String))
    (staticPatterns : List String) :
    ((afterTestsRead cwd config browsers pairs staticPatterns).2
        = pairs.map (fun p => (forceEnable p.1, p.2)))
    ∧ ∀ t : Test,
        (t.pending = true →
          forceEnable t = { t with pending := false, silentSkip := false })
        ∧ (t.pending = false → forceEnable t = t) := by
  constructor
  · simp only [afterTestsRead]
    rw [foldl_eachTestStep_snd]
    simp only [List.nil_append]
  · intro t
    constructor
    · intro hp; simp [forceEnable, hp]
    · intro hp; simp [forceEnable, hp]

/-- Closed instantiation of `pending_tests_force_enabled` discharging
its pending-flag hypothesis at a concrete test. -/
theorem pending_tests_force_enabled_inst :
    forceEnable { file := "/f", pending := true, silentSkip := true }
      = { file := "/f", pending := false, silentSkip := false } :=
  ((pending_tests_force_enabled "/cwd" (fun _ => ScreenshotsDir.fixed "d") [] [] []).2
    { file := "/f", pending := true, silentSkip := true }).1 rfl

/-- C10: when no test-completion notification ever initialised the
run-scoped accumulator (`opts.usedRefPaths` is still absent at diff
time), the pipeline's difference treats the used set as empty, so the
unused set is the whole found set. -/
theorem unused_of_absent_used (found : List String) :
    lodashDifference found none = found := by
  simp [lodashDifference]

/-- The slice of a test's context the worker handlers touch: the
`hermioneCtx.usedRefPaths` accumulator, `none` while the property is
still undefined. -/
structure TestCtx where
  usedRefPaths : Option (List String)
deriving DecidableEq, Repr

/-- Embedding of the replacement `assertView` command (src/lib/index.js
lines 151-155): resolve the current test from the execution context
(here: the `test` argument), ask the browser configuration's
`getScreenshotPath(test, state)` for the reference path and append it to
`test.hermioneCtx.usedRefPaths`, initialising the list on first use.
The body performs no image comparison and no file access: its whole
effect is this pure context update. -/
def assertView (getScreenshotPath : TestCtx → String → String)
    (test : TestCtx) (state : String) : TestCtx :=
  let refPath := getScreenshotPath test state
  { test with usedRefPaths := some (test.usedRefPaths.getD [] ++ [refPath]) }

/-- A sequence of calls to the replacement `assertView`, one per state
label, threading the test context. -/
def assertViewCalls (getScreenshotPath : TestCtx → String → String)
    (test : TestCtx) (states : List String) : TestCtx :=
  states.foldl (assertView getScreenshotPath) test

/-- Accumulation of `assertViewCalls` over a context that already holds
a recorded list. -/
theorem assertViewCalls_some (f : String → String) :
    ∀ (states : List String) (l : List String),
      (assertViewCalls (fun _ s => f s) ⟨some l⟩ states).usedRefPaths
        = some (l ++ states.map f) := by
  intro states
  induction states with
  | nil => intro l; simp [assertViewCalls]
  | cons s ss ih =>
    intro l
    show (assertViewCalls _ (assertView _ ⟨some l⟩ s) ss).usedRefPaths = _
    rw [show assertView (fun _ s => f s) ⟨some l⟩ s = ⟨some (l ++ [f s])⟩ from rfl]
    rw [ih (l ++ [f s])]
    simp

/-- C5: each call of the replacement assertion appends exactly the
resolver's result for (test, state) to the test's accumulator, and a
non-empty sequence of calls with labels `states` against a
state-determined resolver leaves the accumulator holding the resolver's
results in call order. -/
theorem assertView_usage_tracking (g : TestCtx → String → String)
    (f : String → String) (states : List String) (h : states ≠ []) :
    (∀ (t : TestCtx) (s : String),
        assertView g t s
          = { t with usedRefPaths := some (t.usedRefPaths.getD [] ++ [g t s]) })
    ∧ (assertViewCalls (fun _ s => f s) ⟨none⟩ states).usedRefPaths
        = some (states.map f) := by
  constructor
  · intro t s; rfl
  · cases states with
    | nil => exact absurd rfl h
    | cons s ss =>
      show (assertViewCalls _ (assertView _ ⟨none⟩ s) ss).usedRefPaths = _
      rw [show assertView (fun _ s => f s) ⟨none⟩ s = ⟨some [f s]⟩ from rfl]
      rw [assertViewCalls_some f ss [f s]]
      simp

/-- Closed instantiation of `assertView_usage_tracking`: two calls with
labels plain1, plain2 against a resolver returning /ref/1, /ref/2 yield
the used-path list [/ref/1, /ref/2] in call order. -/
theorem assertView_usage_tracking_inst :
    (assertViewCalls
        (fun _ s => if s = "plain1" then "/ref/1" else "/ref/2")
        ⟨none⟩ ["plain1", "plain2"]).usedRefPaths
      = some ["/ref/1", "/ref/2"] :=
  ((assertView_usage_tracking
      (fun _ s => if s = "plain1" then "/ref/1" else "/ref/2")
      (fun s => if s = "plain1" then "/ref/1" else "/ref/2")
      ["plain1", "plain2"] (by decide)).2).trans (by decide)

/-- Embedding of the `TEST_END` handler's effect on the run-scoped
accumulator (src/lib/index.js lines 125-131).  The second argument is
the `_.get(context, 'hermioneCtx.usedRefPaths')` lookup: `none` models
an `undefined` (falsy) result, `some l` a present array — which is
truthy in JavaScript even when empty, so the present branch fires for
any `l`. -/
def testEndHandler (optsUsed : Option (List String))
    (ctxUsed : Option (List String)) : Option (List String) :=
  match ctxUsed with
  | some l => some (optsUsed.getD [] ++ l)
  | none => optsUsed

/-- C6 counterexample: a context carrying a present-but-empty
`usedRefPaths` list does change an absent run-scoped accumulator — the
handler initialises it to the empty list — refuting the claim that an
absent-or-empty list leaves the accumulator entirely unchanged. -/
theorem testEnd_empty_list_initializes :
    testEndHandler none (some []) = some []
    ∧ (some [] : Option (List String)) ≠ none :=
  ⟨rfl, by simp⟩

/-- C6 amended: the handler appends the context's entries whenever the
context carries a `usedRefPaths` list at all (truthiness of the
retrieved array, the empty array included), initialising the accumulator
from the empty list on first use; only an absent list leaves the
accumulator unchanged. -/
theorem testEnd_appends_iff_present (optsUsed : Option (List String))
    (l : List String) :
    testEndHandler optsUsed none = optsUsed
    ∧ testEndHandler optsUsed (some l) = some (optsUsed.getD [] ++ l) :=
  ⟨rfl, rfl⟩

/-- A capability bound on the browser session object: its own original
implementation, the neutral stub that resolves to the value-empty-object
success result, or the recording `assertView` replacement. -/
inductive Capability where
  | original (name : String)
  | stub
  | assertViewRecorder
deriving DecidableEq, Repr

/-- Embedding of the `reservedCommands` list (src/lib/index.js
line 135): the event-emitter prototype keys plus `addCommand`,
`assertView` and `executionContext`. -/
def reservedCommands (eventEmitterKeys : List String) : List String :=
  eventEmitterKeys ++ ["addCommand", "assertView", "executionContext"]

/-- Embedding of `command.startsWith('_')` (src/lib/index.js line 143):
whether the capability name's first character is an underscore. -/
def startsWithUnderscore (s : String) : Bool :=
  match s.data with
  | [] => false
  | c :: _ => c = '_'

/-- Embedding of `browser.addCommand(name, fn, true)` on the session's
capability table: overwrite every binding of `name`, or append a new
binding when none exists. -/
def addCommand (b : List (String × Capability)) (name : String)
    (cap : Capability) : List (String × Capability) :=
  if b.any (fun e => e.1 == name) then
    b.map (fun e => if e.1 == name then (e.1, cap) else e)
  else b ++ [(name, cap)]

/-- Embedding of the `NEW_BROWSER` handler (src/lib/index.js
lines 137-156): a no-op unless the run-scoped `runCleanScreenshots`
flag is set; otherwise every prototype capability outside the reserved
list whose name does not start with an underscore is stubbed, and
`assertView` is replaced by the recording command. -/
def newBrowserHandler (runCleanScreenshots : Bool)
    (eventEmitterKeys : List String)
    (browser : List (String × Capability)) : List (String × Capability) :=
  if !runCleanScreenshots then browser
  else
    let reserved := reservedCommands eventEmitterKeys
    let commandsList := (browser.map Prod.fst).filter
      (fun c => !(reserved.contains c) && !(startsWithUnderscore c))
    let stubbed := commandsList.foldl
      (fun acc name => addCommand acc name Capability.stub) browser
    addCommand stubbed "assertView" Capability.assertViewRecorder

/-- Looking up a key in an overwrite-mapped capability table: the stored
value is replaced exactly when the looked-up key is the overwritten
name. -/
theorem lookup_map_overwrite (name : String) (cap : Capability) (n : String) :
    ∀ b : List (String × Capability),
      List.lookup n (b.map (fun e => if e.1 == name then (e.1, cap) else e))
        = (List.lookup n b).map (fun v => if n == name then cap else v) := by
  intro b
  induction b with
  | nil => simp
  | cons e es ih =>
    obtain ⟨k, v⟩ := e
    rw [List.map_cons]
    cases hbe : (k == name) with
    | true =>
      have hkn : k = name := beq_iff_eq.mp hbe
      cases hbn : (n == k) with
      | true =>
        have hnn : (n == name) = true :=
          beq_iff_eq.mpr ((beq_iff_eq.mp hbn).trans hkn)
        simp [List.lookup, hbe, hbn, hnn]
      | false =>
        simpa [List.lookup, hbe, hbn] using ih
    | false =>
      cases hbn : (n == k) with
      | true =>
        have hnn : (n == name) = false := by
          rw [beq_iff_eq.mp hbn]; exact hbe
        simp [List.lookup, hbe, hbn, hnn]
      | false =>
        simpa [List.lookup, hbe, hbn] using ih

/-- A key that no entry carries looks up to `none`. -/
theorem lookup_eq_none_of_any_false (n : String) :
    ∀ b : List (String × Capability),
      b.any (fun e => e.1 == n) = false → List.lookup n b = none := by
  intro b
  induction b with
  | nil => intro _; rfl
  | cons e es ih =>
    intro h
    simp only [List.any_cons, Bool.or_eq_false_iff] at h
    have hk : ¬n = e.1 := by
      intro heq
      have hbeq : (e.1 == n) = true := beq_iff_eq.mpr heq.symm
      rw [h.1] at hbeq
      exact Bool.false_ne_true hbeq
    simp [List.lookup, beq_false_of_ne hk, ih h.2]

/-- A key that some entry carries looks up to a value. -/
theorem lookup_isSome_of_any (n : String) :
    ∀ b : List (String × Capability),
      b.any (fun e => e.1 == n) = true → ∃ v, List.lookup n b = some v := by
  intro b
  induction b with
  | nil => intro h; cases h
  | cons e es ih =>
    intro h
    by_cases hk : n = e.1
    · exact ⟨e.2, by simp [List.lookup, beq_iff_eq, hk]⟩
    · simp only [List.any_cons, Bool.or_eq_true] at h
      rcases h with h1 | h2
      · exact absurd (beq_iff_eq.mp h1).symm hk
      · obtain ⟨v, hv⟩ := ih h2
        exact ⟨v, by simp [List.lookup, beq_false_of_ne hk, hv]⟩

/-- Lookup distributes over an appended singleton. -/
theorem lookup_append_cases (n : String) (tail : List (String × Capability)) :
    ∀ b : List (String × Capability),
      List.lookup n (b ++ tail)
        = match List.lookup n b with
          | some v => some v
          | none => List.lookup n tail := by
  intro b
  induction b with
  | nil => simp
  | cons e es ih =>
    by_cases hk : n = e.1
    · simp [List.lookup, beq_iff_eq, hk]
    · simp [List.lookup, beq_false_of_ne hk, ih]

/-- Installing a capability under a name makes that name look up to it,
whether the name was already bound or not. -/
theorem lookup_addCommand_self (name : String) (cap : Capability)
    (b : List (String × Capability)) :
    List.lookup name (addCommand b name cap) = some cap := by
  cases hany : b.any (fun e => e.1 == name) with
  | true =>
    rw [addCommand, if_pos hany, lookup_map_overwrite]
    obtain ⟨v, hv⟩ := lookup_isSome_of_any name b hany
    rw [hv]
    simp
  | false =>
    rw [addCommand, if_neg (by rw [hany]; exact Bool.false_ne_true)]
    rw [lookup_append_cases, lookup_eq_none_of_any_false name b hany]
    simp [List.lookup]

/-- Installing a capability under one name leaves lookups of any other
name unchanged. -/
theorem lookup_addCommand_of_ne (n name : String) (hne : n ≠ name)
    (cap : Capability) (b : List (String × Capability)) :
    List.lookup n (addCommand b name cap) = List.lookup n b := by
  cases hany : b.any (fun e => e.1 == name) with
  | true =>
    rw [addCommand, if_pos hany, lookup_map_overwrite]
    cases List.lookup n b with
    | none => rfl
    | some v => simp [beq_false_of_ne hne]
  | false =>
    rw [addCommand, if_neg (by rw [hany]; exact Bool.false_ne_true)]
    rw [lookup_append_cases]
    cases List.lookup n b with
    | none => simp [List.lookup, beq_false_of_ne hne]
    | some v => rfl

/-- A name outside the stubbed list is untouched by the stubbing
fold. -/
theorem lookup_foldl_stub_not_mem (n : String) :
    ∀ (names : List String) (b : List (String × Capability)),
      n ∉ names →
      List.lookup n (names.foldl
          (fun acc name => addCommand acc name Capability.stub) b)
        = List.lookup n b := by
  intro names
  induction names with
  | nil => intro b _; rfl
  | cons nm rest ih =>
    intro b h
    rw [List.foldl_cons, ih _ (fun hr => h (List.mem_cons_of_mem nm hr)),
      lookup_addCommand_of_ne n nm (fun he => h (he ▸ List.mem_cons_self nm rest))]

/-- Every name in the stubbed list ends up bound to the stub after the
stubbing fold. -/
theorem lookup_foldl_stub_mem (n : String) :
    ∀ (names : List String) (b : List (String × Capability)),
      n ∈ names →
      List.lookup n (names.foldl
          (fun acc name => addCommand acc name Capability.stub) b)
        = some Capability.stub := by
  intro names
  induction names with
  | nil => intro b h; cases h
  | cons nm rest ih =>
    intro b h
    by_cases hr : n ∈ rest
    · exact ih _ hr
    · have hn : n = nm := by
        rcases List.mem_cons.mp h with h1 | h2
        · exact h1
        · exact absurd h2 hr
      subst hn
      rw [List.foldl_cons, lookup_foldl_stub_not_mem n rest _ hr,
        lookup_addCommand_self]

/-- C7: with the run-scoped flag unset, the NEW_BROWSER handler leaves
the session's capability table unchanged; with the flag set, every
enumerable capability outside the reserved list (the event-emitter
primitives, `addCommand`, `assertView`, `executionContext`) whose name
does not start with an underscore is bound to the neutral stub that
resolves to the value-empty-object. -/
theorem new_browser_stub_policy (eventEmitterKeys : List String)
    (browser : List (String × Capability)) :
    (newBrowserHandler false eventEmitterKeys browser = browser)
    ∧ ∀ n ∈ browser.map Prod.fst,
        (reservedCommands eventEmitterKeys).contains n = false →
        startsWithUnderscore n = false →
        List.lookup n (newBrowserHandler true eventEmitterKeys browser)
          = some Capability.stub := by
  constructor
  · rfl
  · intro n hmem hres hund
    have hne : n ≠ "assertView" := by
      intro he
      have : (reservedCommands eventEmitterKeys).contains n = true := by
        apply (contains_iff_mem _ _).mpr
        rw [he]
        exact List.mem_append_right _ (by simp)
      rw [hres] at this
      exact Bool.false_ne_true this
    have hfilter : n ∈ (browser.map Prod.fst).filter
        (fun c => !((reservedCommands eventEmitterKeys).contains c)
          && !(startsWithUnderscore c)) := by
      apply List.mem_filter.mpr
      refine ⟨hmem, ?_⟩
      rw [hres, hund]
      rfl
    show List.lookup n (addCommand _ "assertView" Capability.assertViewRecorder)
      = some Capability.stub
    rw [lookup_addCommand_of_ne n "assertView" hne]
    exact lookup_foldl_stub_mem n _ browser hfilter

/-- Closed instantiation of `new_browser_stub_policy` discharging its
name-classification hypotheses at a concrete session. -/
theorem new_browser_stub_policy_inst :
    List.lookup "url" (newBrowserHandler true ["on", "emit"]
        [("url", Capability.original "url"),
         ("_priv", Capability.original "_priv"),
         ("on", Capability.original "on"),
         ("assertView", Capability.original "assertView")])
      = some Capability.stub :=
  (new_browser_stub_policy ["on", "emit"]
      [("url", Capability.original "url"),
       ("_priv", Capability.original "_priv"),
       ("on", Capability.original "on"),
       ("assertView", Capability.original "assertView")]).2
    "url" (by decide) (by decide) (by decide)

/-- The external collaborators of the command action, each able to
fail: the triggered test run (`hermione.run()`), glob expansion
(`glob.expandPaths`), the accumulator state at diff time
(`opts.usedRefPaths`), per-path `fs.stat` sizes, the two confirmation
prompts, and per-path `fs.unlink`. -/
structure Env where
  run : Except String Unit
  expand : List String → Except String (List String)
  usedRefPaths : Option (List String)
  stat : String → Except String Nat
  promptShow : Except String Bool
  promptRemove : Except String Bool
  unlink : String → Except String Unit

/-- Embedding of `pMap(paths, fn)` over a fallible per-path operation:
every path is processed and the first failure, if any, rejects the whole
batch. -/
def pMapExcept {α : Type} (f : String → Except String α) :
    List String → Except String (List α)
  | [] => .ok []
  | p :: ps =>
    match f p with
    | .error e => .error e
    | .ok v =>
      match pMapExcept f ps with
      | .error e => .error e
      | .ok vs => .ok (v :: vs)

/-- The messages the command action can report, keeping the data each
message carries in the source. -/
inductive Msg where
  | screenPathsNotFound (patterns : List String)
  | unusedNotFound (patterns : List String)
  | foundSummary (count : Nat) (bytes : Nat)
  | unusedList (paths : List String)
  | canceled
  | succeeded
  | errorCaught (e : String)
deriving DecidableEq, Repr

/-- Observable behaviour of one command-action execution: the pattern
lists handed to glob expansion, the paths passed to `fs.stat`, the
number of prompts issued, the paths passed to `fs.unlink`, the reported
messages in order, and the exit code requested via `process.exit` (or
`none` when the action returns normally). -/
structure Trace where
  globCalls : List (List String)
  statCalls : List String
  promptCalls : Nat
  unlinkCalls : List String
  logs : List Msg
  exitCode : Option Nat
deriving DecidableEq, Repr

/-- Embedding of the `clean-screenshots` command action
(src/lib/index.js lines 33-93) after the run's patterns have been
collected into `screenPatterns`.  The whole body sits in one
`try`/`catch`: the first failing collaborator short-circuits into the
catch branch, which reports the error and requests exit code 1.  Bulk
`fs.stat` and `fs.unlink` are issued for every path of the unused list
(parallel fan-out in the source), so the trace records all of them even
when one fails. -/
def cleanAction (screenPatterns : List String) (env : Env) : Trace :=
  match env.run with
  | .error e =>
      { globCalls := [], statCalls := [], promptCalls := 0, unlinkCalls := [],
        logs := [.errorCaught e], exitCode := some 1 }
  | .ok _ =>
    let pats := uniq screenPatterns
    match env.expand pats with
    | .error e =>
        { globCalls := [pats], statCalls := [], promptCalls := 0, unlinkCalls := [],
          logs := [.errorCaught e], exitCode := some 1 }
    | .ok readRefPaths =>
      if readRefPaths.isEmpty then
        { globCalls := [pats], statCalls := [], promptCalls := 0, unlinkCalls := [],
          logs := [.screenPathsNotFound pats], exitCode := none }
      else
        let unusedRefPaths := lodashDifference readRefPaths env.usedRefPaths
        if unusedRefPaths.isEmpty then
          { globCalls := [pats], statCalls := [], promptCalls := 0, unlinkCalls := [],
            logs := [.unusedNotFound pats], exitCode := none }
        else
          match pMapExcept env.stat unusedRefPaths with
          | .error e =>
              { globCalls := [pats], statCalls := unusedRefPaths, promptCalls := 0,
                unlinkCalls := [], logs := [.errorCaught e], exitCode := some 1 }
          | .ok sizes =>
            let bytes := sizes.foldl (· + ·) 0
            let logs0 := [Msg.foundSummary unusedRefPaths.length bytes]
            match env.promptShow with
            | .error e =>
                { globCalls := [pats], statCalls := unusedRefPaths, promptCalls := 1,
                  unlinkCalls := [], logs := logs0 ++ [.errorCaught e], exitCode := some 1 }
            | .ok sh =>
              let logs1 := logs0 ++ (if sh then [Msg.unusedList unusedRefPaths] else [])
              match env.promptRemove with
              | .error e =>
                  { globCalls := [pats], statCalls := unusedRefPaths, promptCalls := 2,
                    unlinkCalls := [], logs := logs1 ++ [.errorCaught e], exitCode := some 1 }
              | .ok rm =>
                if !rm then
                  { globCalls := [pats], statCalls := unusedRefPaths, promptCalls := 2,
                    unlinkCalls := [], logs := logs1 ++ [.canceled], exitCode := none }
                else
                  match pMapExcept env.unlink unusedRefPaths with
                  | .error e =>
                      { globCalls := [pats], statCalls := unusedRefPaths, promptCalls := 2,
                        unlinkCalls := unusedRefPaths, logs := logs1 ++ [.errorCaught e],
                        exitCode := some 1 }
                  | .ok _ =>
                      { globCalls := [pats], statCalls := unusedRefPaths, promptCalls := 2,
                        unlinkCalls := unusedRefPaths, logs := logs1 ++ [.succeeded],
                        exitCode := none }

/-- C3: when glob expansion returns no paths, or when the computed
unused set is empty, the action reports the corresponding not-found
message and returns normally, with zero calls to stat, to the prompts
and to unlink. -/
theorem pipeline_not_found_short_circuit (pats : List String) (env : Env)
    (hrun : env.run = .ok ()) :
    (∀ found, env.expand (uniq pats) = .ok found → found.isEmpty = true →
        cleanAction pats env
          = { globCalls := [uniq pats], statCalls := [], promptCalls := 0,
              unlinkCalls := [], logs := [.screenPathsNotFound (uniq pats)],
              exitCode := none })
    ∧ (∀ found, env.expand (uniq pats) = .ok found → found.isEmpty = false →
        (lodashDifference found env.usedRefPaths).isEmpty = true →
        cleanAction pats env
          = { globCalls := [uniq pats], statCalls := [], promptCalls := 0,
              unlinkCalls := [], logs := [.unusedNotFound (uniq pats)],
              exitCode := none }) := by
  constructor
  · intro found hexp hemp
    simp only [cleanAction, hrun, hexp, hemp]
    simp
  · intro found hexp hne hdiff
    simp only [cleanAction, hrun, hexp, hne, hdiff]
    simp

/-- Sample environment whose glob expansion matches nothing. -/
def envNotFound : Env :=
  { run := .ok (), expand := fun _ => .ok [], usedRefPaths := none,
    stat := fun _ => .ok 0, promptShow := .ok false, promptRemove := .ok false,
    unlink := fun _ => .ok () }

/-- Closed instantiation of `pipeline_not_found_short_circuit`
discharging its hypotheses against `envNotFound`. -/
theorem pipeline_not_found_short_circuit_inst :
    cleanAction [] envNotFound
      = { globCalls := [[]], statCalls := [], promptCalls := 0,
          unlinkCalls := [], logs := [.screenPathsNotFound []],
          exitCode := none } :=
  (pipeline_not_found_short_circuit [] envNotFound rfl).1 [] rfl rfl

/-- C4: with a non-empty unused set and every earlier step succeeding, a
negative remove answer yields zero unlink calls, a cancellation message
and a normal return, while a positive answer (with unlink succeeding)
yields exactly one unlink call per unused path and a success message. -/
theorem pipeline_remove_confirmation (pats : List String) (env : Env)
    (found : List String) (sizes : List Nat) (sh : Bool)
    (hrun : env.run = .ok ())
    (hexp : env.expand (uniq pats) = .ok found)
    (hne : found.isEmpty = false)
    (hunused : (lodashDifference found env.usedRefPaths).isEmpty = false)
    (hstat : pMapExcept env.stat (lodashDifference found env.usedRefPaths) = .ok sizes)
    (hsh : env.promptShow = .ok sh) :
    (env.promptRemove = .ok false →
        (cleanAction pats env).unlinkCalls = []
        ∧ Msg.canceled ∈ (cleanAction pats env).logs
        ∧ (cleanAction pats env).exitCode = none)
    ∧ (∀ us, env.promptRemove = .ok true →
        pMapExcept env.unlink (lodashDifference found env.usedRefPaths) = .ok us →
        (cleanAction pats env).unlinkCalls = lodashDifference found env.usedRefPaths
        ∧ Msg.succeeded ∈ (cleanAction pats env).logs
        ∧ (cleanAction pats env).exitCode = none) := by
  constructor
  · intro hrm
    simp only [cleanAction, hrun, hexp, hne, hunused, hstat, hsh, hrm]
    refine ⟨by simp, ?_, by simp⟩
    simp
  · intro us hrm hunlink
    simp only [cleanAction, hrun, hexp, hne, hunused, hstat, hsh, hrm, hunlink]
    refine ⟨by simp, ?_, by simp⟩
    simp

/-- Sample environment with one unused screenshot where the operator
confirms deletion. -/
def envRemove : Env :=
  { run := .ok (), expand := fun _ => .ok ["/s/a.png"], usedRefPaths := none,
    stat := fun _ => .ok 100, promptShow := .ok false, promptRemove := .ok true,
    unlink := fun _ => .ok () }

/-- Closed instantiation of `pipeline_remove_confirmation` discharging
its hypotheses against `envRemove`. -/
theorem pipeline_remove_confirmation_inst :
    (cleanAction [] envRemove).unlinkCalls = ["/s/a.png"]
    ∧ Msg.succeeded ∈ (cleanAction [] envRemove).logs
    ∧ (cleanAction [] envRemove).exitCode = none :=
  (pipeline_remove_confirmation [] envRemove ["/s/a.png"] [100] false
      rfl rfl rfl rfl rfl rfl).2 [()] rfl rfl

/-- C8: every execution of the command action either returns normally
with no caught-error report and no exit request, or reports a caught
error and requests exit code 1 — the single top-level error boundary. -/
theorem pipeline_single_error_boundary (pats : List String) (env : Env) :
    ((cleanAction pats env).exitCode = none
        ∧ ∀ e, Msg.errorCaught e ∉ (cleanAction pats env).logs)
    ∨ (∃ e, (cleanAction pats env).exitCode = some 1
        ∧ Msg.errorCaught e ∈ (cleanAction pats env).logs) := by
  cases hrun : env.run with
  | error e =>
    right
    exact ⟨e, by simp [cleanAction, hrun], by simp [cleanAction, hrun]⟩
  | ok u =>
    cases hexp : env.expand (uniq pats) with
    | error e =>
      right
      exact ⟨e, by simp [cleanAction, hrun, hexp], by simp [cleanAction, hrun, hexp]⟩
    | ok found =>
      cases hemp : found.isEmpty with
      | true =>
        left
        exact ⟨by simp [cleanAction, hrun, hexp, hemp],
          fun e => by simp [cleanAction, hrun, hexp, hemp]⟩
      | false =>
        cases hdiff : (lodashDifference found env.usedRefPaths).isEmpty with
        | true =>
          left
          exact ⟨by simp [cleanAction, hrun, hexp, hemp, hdiff],
            fun e => by simp [cleanAction, hrun, hexp, hemp, hdiff]⟩
        | false =>
          cases hstat : pMapExcept env.stat (lodashDifference found env.usedRefPaths) with
          | error e =>
            right
            exact ⟨e, by simp [cleanAction, hrun, hexp, hemp, hdiff, hstat],
              by simp [cleanAction, hrun, hexp, hemp, hdiff, hstat]⟩
          | ok sizes =>
            cases hsh : env.promptShow with
            | error e =>
              right
              exact ⟨e, by simp [cleanAction, hrun, hexp, hemp, hdiff, hstat, hsh],
                by simp [cleanAction, hrun, hexp, hemp, hdiff, hstat, hsh]⟩
            | ok sh =>
              cases hrm : env.promptRemove with
              | error e =>
                right
                refine ⟨e, ?_, ?_⟩ <;>
                  cases sh <;>
                  simp [cleanAction, hrun, hexp, hemp, hdiff, hstat, hsh, hrm]
              | ok rm =>
                cases rm with
                | false =>
                  left
                  refine ⟨?_, fun e => ?_⟩ <;>
                    cases sh <;>
                    simp [cleanAction, hrun, hexp, hemp, hdiff, hstat, hsh, hrm]
                | true =>
                  cases hunlink :
                      pMapExcept env.unlink (lodashDifference found env.usedRefPaths) with
                  | error e =>
                    right
                    refine ⟨e, ?_, ?_⟩ <;>
                      cases sh <;>
                      simp [cleanAction, hrun, hexp, hemp, hdiff, hstat, hsh,
                        hrm, hunlink]
                  | ok us =>
                    left
                    refine ⟨?_, fun e => ?_⟩ <;>
                      cases sh <;>
                      simp [cleanAction, hrun, hexp, hemp, hdiff, hstat, hsh,
                        hrm, hunlink]

end ScreenshotsCleaner
